import Mathlib

/-!
# caffe2/utils/proto_utils.h

A shallow embedding of the operator-definition builder (`CreateOperatorDef`), of the
argument store (`HasArgument`, `GetArgument`, `GetMutableArgument`) and of the file
readers and writers (`ReadProtoFromFile` and the text wrappers of `MessageLite`).

Conventions of the embedding:

* a C++ `std::string` is a `String`; `s.size()` is `s.length`;
* an iterable of strings or arguments is a `List`, visited front to back;
* the protocol-buffer messages are plain records, and a mutating member function
  is a function from the old record to the new one;
* a pointer into the repeated field `arg` of a definition (`Argument*`) is the index of
  the entry it designates; `nullptr` is `none`;
* `CAFFE_LOG_FATAL` aborts: a function that can reach it returns in `Except String`, the
  error carrying the logged message;
* a function that writes through a message pointer returns the message as the call
  leaves it next to its result; overloads of one C++ name get distinct Lean names.
-/

set_option autoImplicit false

namespace caffe2

/-! ## The messages of `caffe2.proto` -/

/-- Modelled from the spec: the `Argument` message, declared in `caffe2.proto`, which is
not part of this header. It is a name and a value; the value is opaque here (`V` stands
for the variants owned by the schema) and `none` is the empty value of a fresh entry. -/
structure Argument (V : Type) where
  name : String
  value : Option V
  deriving DecidableEq, Repr

/-- Modelled from the spec: the `DeviceOption` message of `caffe2.proto`, a descriptor of
the execution target (device kind and device index). Each field carries its own presence
flag, so that "unset" and "set to the default" are distinct. -/
structure DeviceOption where
  device_type : Option Nat
  device_id : Option Int
  deriving DecidableEq, Repr

/-- Modelled from the spec: the `OperatorDef` message of `caffe2.proto`. -/
structure OperatorDef (V : Type) where
  type : String
  name : String
  input : List String
  output : List String
  arg : List (Argument V)
  device_option : Option DeviceOption
  engine : Option String
  deriving DecidableEq, Repr

variable {V : Type}

/-- Modelled from the spec: a default-constructed `Argument` (empty name, empty value). -/
def Argument.new : Argument V :=
  { name := "", value := none }

/-- Modelled from the spec: `Argument::set_name`. -/
def Argument.set_name (a : Argument V) (name : String) : Argument V :=
  { a with name := name }

/-- Modelled from the spec: `Argument::CopyFrom`, which overwrites the receiver with the
fields of `src`. -/
def Argument.CopyFrom (_dst src : Argument V) : Argument V :=
  src

/-- Modelled from the spec: a default-constructed `DeviceOption()`, no field set. -/
def DeviceOption.new : DeviceOption :=
  { device_type := none, device_id := none }

/-- Modelled from the spec: `DeviceOption::has_device_type`, the presence flag of the
device type. -/
def DeviceOption.has_device_type (o : DeviceOption) : Bool :=
  o.device_type.isSome

/-- Modelled from the spec: `DeviceOption::CopyFrom`. -/
def DeviceOption.CopyFrom (_dst src : DeviceOption) : DeviceOption :=
  src

namespace OperatorDef

/-- Modelled from the spec: a default-constructed `OperatorDef`: empty strings, empty
sequences, no device option and no engine attached. -/
def new : OperatorDef V :=
  { type := "", name := "", input := [], output := [], arg := [],
    device_option := none, engine := none }

/-- Modelled from the spec: `OperatorDef::set_type`. -/
def set_type (d : OperatorDef V) (type : String) : OperatorDef V :=
  { d with type := type }

/-- Modelled from the spec: `OperatorDef::set_name`. -/
def set_name (d : OperatorDef V) (name : String) : OperatorDef V :=
  { d with name := name }

/-- Modelled from the spec: `OperatorDef::add_input`, appending at the end. -/
def add_input (d : OperatorDef V) (s : String) : OperatorDef V :=
  { d with input := d.input ++ [s] }

/-- Modelled from the spec: `OperatorDef::add_output`, appending at the end. -/
def add_output (d : OperatorDef V) (s : String) : OperatorDef V :=
  { d with output := d.output ++ [s] }

/-- Modelled from the spec: `OperatorDef::arg_size`. -/
def arg_size (d : OperatorDef V) : Nat :=
  d.arg.length

/-- Modelled from the spec: `OperatorDef::add_arg`, which appends a default `Argument`
at the end of the sequence and returns a pointer to it (here its index). -/
def add_arg (d : OperatorDef V) : OperatorDef V × Nat :=
  ({ d with arg := d.arg ++ [Argument.new] }, d.arg.length)

/-- Modelled from the spec: a write through an `Argument*` obtained from the definition:
the entry at index `p` is replaced by `f` of it, every other entry is untouched. -/
def update_arg (d : OperatorDef V) (p : Nat) (f : Argument V → Argument V) : OperatorDef V :=
  { d with arg := d.arg.modify f p }

/-- Modelled from the spec: `OperatorDef::has_device_option`. -/
def has_device_option (d : OperatorDef V) : Bool :=
  d.device_option.isSome

/-- Modelled from the spec: `OperatorDef::has_engine`. -/
def has_engine (d : OperatorDef V) : Bool :=
  d.engine.isSome

/-- Modelled from the spec: `OperatorDef::mutable_device_option`, which attaches a default
device option when none is attached; the pointer it returns designates the attached one. -/
def mutable_device_option (d : OperatorDef V) : OperatorDef V :=
  { d with device_option := some (d.device_option.getD DeviceOption.new) }

/-- Modelled from the spec: a write through the pointer that `mutable_device_option`
returned. -/
def update_device_option (d : OperatorDef V) (f : DeviceOption → DeviceOption) :
    OperatorDef V :=
  { d with device_option := d.device_option.map f }

/-- Modelled from the spec: `OperatorDef::set_engine`. -/
def set_engine (d : OperatorDef V) (engine : String) : OperatorDef V :=
  { d with engine := some engine }

end OperatorDef

/-- Modelled from the spec: `CAFFE_LOG_FATAL` of `caffe2/core/logging.h`, which logs its
message and never returns normally. -/
def CAFFE_LOG_FATAL {α : Type} (msg : String) : Except String α :=
  Except.error msg

/-! ## The builder -/

/-- The full form of `CreateOperatorDef` (lines 75-99). -/
def CreateOperatorDef (type name : String) (inputs outputs : List String)
    (args : List (Argument V)) (device_option : DeviceOption) (engine : String) :
    OperatorDef V :=
  let d : OperatorDef V := OperatorDef.new
  let d := d.set_type type
  let d := d.set_name name
  let d := inputs.foldl (fun d s => d.add_input s) d
  let d := outputs.foldl (fun d out => d.add_output out) d
  let d := args.foldl (fun d arg => d.add_arg.1.update_arg d.add_arg.2 (·.CopyFrom arg)) d
  let d := if device_option.has_device_type then
      d.mutable_device_option.update_device_option (·.CopyFrom device_option)
    else d
  let d := if engine.length ≠ 0 then d.set_engine engine else d
  d

/-! ## The argument store -/

/-- The loop of `HasArgument` over the arguments still to visit. -/
def HasArgument.loop (name : String) : List (Argument V) → Bool
  | [] => false
  | arg :: rest => if arg.name = name then true else HasArgument.loop name rest

/-- The function `HasArgument` (lines 122-129). -/
def HasArgument (d : OperatorDef V) (name : String) : Bool :=
  HasArgument.loop name d.arg

/-- The loop of `GetArgument` over the arguments still to visit: `some arg` when the loop
returns `arg`, `none` when it runs to its end. -/
def GetArgument.loop (name : String) : List (Argument V) → Option (Argument V)
  | [] => none
  | arg :: rest => if arg.name = name then some arg else GetArgument.loop name rest

/-- The function `GetArgument` (lines 131-141); a returned `const Argument&` is the
value it refers to. The value returned after the fatal log is the static
dummy argument of the source. -/
def GetArgument (d : OperatorDef V) (name : String) : Except String (Argument V) :=
  match GetArgument.loop name d.arg with
  | some arg => pure arg
  | none => do
    let () ← CAFFE_LOG_FATAL ("Argument named " ++ name ++ " does not exist.")
    pure Argument.new

/-- The loop of `GetMutableArgument`: `i` is the loop counter and the list holds the
entries `arg(i)`, `arg(i+1)`, ... up to `arg_size()`; `some i` when the loop returns
`mutable_arg(i)`, `none` when it runs to its end. -/
def GetMutableArgument.loop (name : String) : List (Argument V) → Nat → Option Nat
  | [], _ => none
  | a :: rest, i => if a.name = name then some i else GetMutableArgument.loop name rest (i + 1)

/-- The function `GetMutableArgument` (lines 143-158): the returned pointer and the definition as the
call leaves it. -/
def GetMutableArgument (name : String) (create_if_missing : Bool) (d : OperatorDef V) :
    Option Nat × OperatorDef V :=
  match GetMutableArgument.loop name d.arg 0 with
  | some i => (some i, d)
  | none =>
    if create_if_missing then
      let (d, arg) := d.add_arg
      let d := d.update_arg arg (·.set_name name)
      (some arg, d)
    else
      (none, d)

/-! ## The reduced forms of the builder -/

/-- The five-argument form of `CreateOperatorDef` (lines 101-109), without device option
and engine. -/
def CreateOperatorDef5 (type name : String) (inputs outputs : List String)
    (args : List (Argument V)) : OperatorDef V :=
  CreateOperatorDef type name inputs outputs args DeviceOption.new ""

/-- The four-argument form of `CreateOperatorDef` (lines 111-119), without arguments,
device option and engine; `std::vector<Argument>()` is the empty list. -/
def CreateOperatorDef4 (type name : String) (inputs outputs : List String) : OperatorDef V :=
  CreateOperatorDef type name inputs outputs ([] : List (Argument V)) DeviceOption.new ""

/-! ## Reading and writing files -/

/-- The C string that a `const char*` parameter receives from `filename.c_str()`: the
characters of `filename` before its first NUL. -/
def c_str (filename : String) : String :=
  ⟨filename.data.takeWhile (fun c => c ≠ Char.ofNat 0)⟩

/-- The text that the text wrappers of `MessageLite` log (lines 29-30 and 39-40). -/
def liteTextMessage : String :=
  "If you are running lite version, you should not be " ++
    "calling any text-format protobuffers."

namespace Message

variable {M : Type}

/-- The function `ReadProtoFromFile(const char*, Message*)` (lines 58-62). The two readers
it calls are declared in this header and defined elsewhere: they are parameters here, each
giving its result and the message as it leaves it. The right operand of `||` is evaluated
only when the left one is false. -/
def ReadProtoFromFile (ReadProtoFromBinaryFile ReadProtoFromTextFile : String → M → Bool × M)
    (filename : String) (proto : M) : Bool × M :=
  match ReadProtoFromBinaryFile filename proto with
  | (true, proto) => (true, proto)
  | (false, proto) => ReadProtoFromTextFile filename proto

/-- The function `ReadProtoFromFile(const string&, Message*)` (lines 63-65). -/
def ReadProtoFromFile.string
    (ReadProtoFromBinaryFile ReadProtoFromTextFile : String → M → Bool × M)
    (filename : String) (proto : M) : Bool × M :=
  ReadProtoFromFile ReadProtoFromBinaryFile ReadProtoFromTextFile (c_str filename) proto

end Message

namespace MessageLite

variable {L : Type}

/-- The function `ReadProtoFromTextFile(const char*, MessageLite*)` (lines 28-32): the
result, fatal or returned, and the message as the call leaves it. -/
def ReadProtoFromTextFile (_filename : String) (proto : L) : Except String Bool × L :=
  match (CAFFE_LOG_FATAL liteTextMessage : Except String Unit) with
  | Except.error e => (Except.error e, proto)
  | Except.ok () => (Except.ok false, proto)

/-- The function `ReadProtoFromTextFile(const string, MessageLite*)` (lines 33-35). -/
def ReadProtoFromTextFile.string (filename : String) (proto : L) : Except String Bool × L :=
  ReadProtoFromTextFile (c_str filename) proto

/-- The function `WriteProtoToTextFile(const MessageLite&, const char*)` (lines 37-41):
the result, fatal or returned, and the message as the call leaves it. -/
def WriteProtoToTextFile (proto : L) (_filename : String) : Except String Unit × L :=
  match (CAFFE_LOG_FATAL liteTextMessage : Except String Unit) with
  | Except.error e => (Except.error e, proto)
  | Except.ok () => (Except.ok (), proto)

/-- The function `WriteProtoToTextFile(const MessageLite&, const string&)` (lines 42-45). -/
def WriteProtoToTextFile.string (proto : L) (filename : String) : Except String Unit × L :=
  WriteProtoToTextFile proto (c_str filename)

/-- The function `ReadProtoFromFile(const char*, MessageLite*)` (lines 67-70). The binary
reader is declared in this header and defined elsewhere: it is a parameter here; the text
reader is the wrapper above. -/
def ReadProtoFromFile (ReadProtoFromBinaryFile : String → L → Bool × L)
    (filename : String) (proto : L) : Except String Bool × L :=
  match ReadProtoFromBinaryFile filename proto with
  | (true, proto) => (Except.ok true, proto)
  | (false, proto) => ReadProtoFromTextFile filename proto

/-- The function `ReadProtoFromFile(const string&, MessageLite*)` (lines 71-73). -/
def ReadProtoFromFile.string (ReadProtoFromBinaryFile : String → L → Bool × L)
    (filename : String) (proto : L) : Except String Bool × L :=
  ReadProtoFromFile ReadProtoFromBinaryFile (c_str filename) proto

end MessageLite

/-- Modelled from the spec: the four codec entry points that this header declares and
does not define, over a file system `FS`. A read gives its boolean result and the message
as it leaves it; a write gives the file system it leaves, or is fatal when the file cannot
be opened. -/
structure FileCodec (FS M : Type) where
  ReadProtoFromBinaryFile : FS → String → M → Bool × M
  ReadProtoFromTextFile : FS → String → M → Bool × M
  WriteProtoToBinaryFile : FS → M → String → Except String FS
  WriteProtoToTextFile : FS → M → String → Except String FS

/-- A codec to run the readers on: a file is a flag (binary or text) and a number, a file
system is a list of named files, the newest first. A read succeeds on a file of its own
encoding and fails, leaving the message as it was, on any other. -/
def sampleCodec : FileCodec (List (String × Bool × Nat)) Nat where
  ReadProtoFromBinaryFile fs filename proto :=
    match fs.lookup filename with
    | some (true, D) => (true, D)
    | _ => (false, proto)
  ReadProtoFromTextFile fs filename proto :=
    match fs.lookup filename with
    | some (false, D) => (true, D)
    | _ => (false, proto)
  WriteProtoToBinaryFile fs proto filename := Except.ok ((filename, true, proto) :: fs)
  WriteProtoToTextFile fs proto filename := Except.ok ((filename, false, proto) :: fs)

/-- A binary reader that fails on every file and leaves the message as it was. -/
def failingBinaryReader (_filename : String) (proto : Nat) : Bool × Nat :=
  (false, proto)

/-- The index `k` is the first one of `l` whose entry is named `name`. -/
def FirstNamed (name : String) (l : List (Argument V)) (k : Nat) : Prop :=
  (∃ a, l[k]? = some a ∧ a.name = name) ∧ ∀ j, j < k → ∀ b, l[j]? = some b → b.name ≠ name

/-- A definition with three arguments, two of which share the name `pad`. -/
def sampleDef : OperatorDef Nat :=
  { type := "Conv", name := "conv1", input := ["X", "W"], output := ["Y"],
    arg := [⟨"kernel", some 3⟩, ⟨"pad", some 1⟩, ⟨"pad", some 2⟩],
    device_option := some ⟨some 1, some 0⟩, engine := some "CUDNN" }

/-! ## Auxiliary facts about the protocol-buffer operations -/

theorem modify_append_last (f : Argument V → Argument V) (l : List (Argument V))
    (a : Argument V) : (l ++ [a]).modify f l.length = l ++ [f a] := by
  induction l with
  | nil => rfl
  | cons b t ih => simpa [List.modify] using ih

theorem add_arg_copy (d : OperatorDef V) (arg : Argument V) :
    d.add_arg.1.update_arg d.add_arg.2 (·.CopyFrom arg) = { d with arg := d.arg ++ [arg] } := by
  simp [OperatorDef.add_arg, OperatorDef.update_arg, modify_append_last, Argument.CopyFrom]

theorem add_arg_set_name (d : OperatorDef V) (name : String) :
    d.add_arg.1.update_arg d.add_arg.2 (·.set_name name) =
      { d with arg := d.arg ++ [⟨name, none⟩] } := by
  simp [OperatorDef.add_arg, OperatorDef.update_arg, modify_append_last, Argument.set_name,
    Argument.new]

theorem foldl_add_input (inputs : List String) (d : OperatorDef V) :
    inputs.foldl (fun d s => d.add_input s) d = { d with input := d.input ++ inputs } := by
  induction inputs generalizing d with
  | nil => simp
  | cons s t ih => rw [List.foldl_cons, ih]; simp [OperatorDef.add_input]

theorem foldl_add_output (outputs : List String) (d : OperatorDef V) :
    outputs.foldl (fun d out => d.add_output out) d =
      { d with output := d.output ++ outputs } := by
  induction outputs generalizing d with
  | nil => simp
  | cons s t ih => rw [List.foldl_cons, ih]; simp [OperatorDef.add_output]

theorem foldl_add_arg (args : List (Argument V)) (d : OperatorDef V) :
    args.foldl (fun d arg => d.add_arg.1.update_arg d.add_arg.2 (·.CopyFrom arg)) d =
      { d with arg := d.arg ++ args } := by
  induction args generalizing d with
  | nil => simp
  | cons a t ih => rw [List.foldl_cons, ih, add_arg_copy]; simp

/-- The definition the builder returns, in closed form. -/
theorem CreateOperatorDef_eq (type name : String) (inputs outputs : List String)
    (args : List (Argument V)) (device_option : DeviceOption) (engine : String) :
    CreateOperatorDef type name inputs outputs args device_option engine =
      { type := type, name := name, input := inputs, output := outputs, arg := args,
        device_option := if device_option.has_device_type then some device_option else none,
        engine := if engine = "" then none else some engine } := by
  have he : engine.length = 0 ↔ engine = "" := by
    rw [String.length, List.length_eq_zero]
    constructor
    · intro h; exact String.ext h
    · intro h; rw [h]
  unfold CreateOperatorDef
  simp only [foldl_add_input, foldl_add_output, foldl_add_arg]
  by_cases hd : device_option.has_device_type = true <;> by_cases hn : engine = "" <;>
    simp [hd, hn, he, OperatorDef.new, OperatorDef.set_type, OperatorDef.set_name,
      OperatorDef.mutable_device_option, OperatorDef.update_device_option,
      OperatorDef.set_engine, DeviceOption.CopyFrom]

/-! ## Auxiliary facts about the three loops -/

theorem HasArgument_loop_iff (name : String) (l : List (Argument V)) :
    HasArgument.loop name l = true ↔ ∃ a ∈ l, a.name = name := by
  induction l with
  | nil => simp [HasArgument.loop]
  | cons b t ih =>
    by_cases hb : b.name = name
    · simp [HasArgument.loop, hb]
    · simp [HasArgument.loop, hb, ih]

theorem FirstNamed_zero (name : String) (b : Argument V) (t : List (Argument V))
    (hb : b.name = name) : FirstNamed name (b :: t) 0 :=
  ⟨⟨b, by simp, hb⟩, fun j hj => absurd hj (Nat.not_lt_zero j)⟩

theorem FirstNamed_succ (name : String) (b : Argument V) (t : List (Argument V)) (k : Nat)
    (hb : b.name ≠ name) (h : FirstNamed name t k) : FirstNamed name (b :: t) (k + 1) := by
  obtain ⟨⟨a, ha, han⟩, hmin⟩ := h
  refine ⟨⟨a, by simpa using ha, han⟩, ?_⟩
  intro j hj c hc
  cases j with
  | zero =>
    have : b = c := by simpa using hc
    exact this ▸ hb
  | succ j => exact hmin j (by omega) c (by simpa using hc)

theorem FirstNamed_unique (name : String) (l : List (Argument V)) (k k' : Nat)
    (h : FirstNamed name l k) (h' : FirstNamed name l k') : k = k' := by
  obtain ⟨⟨a, ha, han⟩, hmin⟩ := h
  obtain ⟨⟨a', ha', han'⟩, hmin'⟩ := h'
  rcases Nat.lt_trichotomy k k' with hlt | heq | hgt
  · exact absurd han (hmin' k hlt a ha)
  · exact heq
  · exact absurd han' (hmin k' hgt a' ha')

theorem GetArgument_loop_none_iff (name : String) (l : List (Argument V)) :
    GetArgument.loop name l = none ↔ ∀ a ∈ l, a.name ≠ name := by
  induction l with
  | nil => simp [GetArgument.loop]
  | cons b t ih =>
    by_cases hb : b.name = name
    · simp [GetArgument.loop, hb]
    · simp [GetArgument.loop, hb, ih]

theorem GetArgument_loop_some (name : String) (l : List (Argument V)) (a : Argument V)
    (h : GetArgument.loop name l = some a) :
    ∃ k, l[k]? = some a ∧ FirstNamed name l k := by
  induction l with
  | nil => simp [GetArgument.loop] at h
  | cons b t ih =>
    by_cases hb : b.name = name
    · have hab : b = a := by simpa [GetArgument.loop, hb] using h
      exact ⟨0, by simp [hab], FirstNamed_zero name b t hb⟩
    · have ht : GetArgument.loop name t = some a := by simpa [GetArgument.loop, hb] using h
      obtain ⟨k, hk, hf⟩ := ih ht
      exact ⟨k + 1, by simpa using hk, FirstNamed_succ name b t k hb hf⟩

theorem GetMutableArgument_loop_none_iff (name : String) (l : List (Argument V)) (i : Nat) :
    GetMutableArgument.loop name l i = none ↔ ∀ a ∈ l, a.name ≠ name := by
  induction l generalizing i with
  | nil => simp [GetMutableArgument.loop]
  | cons b t ih =>
    by_cases hb : b.name = name
    · simp [GetMutableArgument.loop, hb]
    · simp [GetMutableArgument.loop, hb, ih]

theorem GetMutableArgument_loop_some (name : String) (l : List (Argument V)) (i p : Nat)
    (h : GetMutableArgument.loop name l i = some p) :
    ∃ k, p = i + k ∧ FirstNamed name l k := by
  induction l generalizing i with
  | nil => simp [GetMutableArgument.loop] at h
  | cons b t ih =>
    by_cases hb : b.name = name
    · have hp : i = p := by simpa [GetMutableArgument.loop, hb] using h
      exact ⟨0, by omega, FirstNamed_zero name b t hb⟩
    · have ht : GetMutableArgument.loop name t (i + 1) = some p := by
        simpa [GetMutableArgument.loop, hb] using h
      obtain ⟨k, hk, hf⟩ := ih (i + 1) ht
      exact ⟨k + 1, by omega, FirstNamed_succ name b t k hb hf⟩

theorem GetMutableArgument_loop_found (name : String) (l : List (Argument V))
    (h : ∃ a ∈ l, a.name = name) :
    ∃ k, GetMutableArgument.loop name l 0 = some k ∧ FirstNamed name l k := by
  cases hl : GetMutableArgument.loop name l 0 with
  | none =>
    obtain ⟨a, hal, han⟩ := h
    exact absurd han ((GetMutableArgument_loop_none_iff name l 0).1 hl a hal)
  | some p =>
    obtain ⟨k, hk, hf⟩ := GetMutableArgument_loop_some name l 0 p hl
    have : p = k := by omega
    exact ⟨p, rfl, this ▸ hf⟩

theorem GetMutableArgument_absent (name : String) (c : Bool) (d : OperatorDef V)
    (h : ∀ a ∈ d.arg, a.name ≠ name) :
    GetMutableArgument name c d =
      if c then (some d.arg.length, { d with arg := d.arg ++ [⟨name, none⟩] })
      else (none, d) := by
  have hl := (GetMutableArgument_loop_none_iff name d.arg 0).2 h
  cases c
  · simp [GetMutableArgument, hl]
  · simp [GetMutableArgument, hl, add_arg_set_name]
    simp [OperatorDef.add_arg]

theorem GetMutableArgument_present (name : String) (c : Bool) (d : OperatorDef V)
    (h : ∃ a ∈ d.arg, a.name = name) :
    ∃ k, GetMutableArgument name c d = (some k, d) ∧ FirstNamed name d.arg k := by
  obtain ⟨k, hk, hf⟩ := GetMutableArgument_loop_found name d.arg h
  exact ⟨k, by simp [GetMutableArgument, hk], hf⟩

theorem GetArgument_loop_eq_find (name : String) (l : List (Argument V)) :
    GetArgument.loop name l = l.find? (fun b => decide (b.name = name)) := by
  induction l with
  | nil => rfl
  | cons b t ih =>
    by_cases hb : b.name = name
    · simp [GetArgument.loop, hb]
    · simp [GetArgument.loop, hb, ih]

theorem GetArgument_of_loop (d : OperatorDef V) (name : String) (a : Argument V)
    (h : GetArgument.loop name d.arg = some a) : GetArgument d name = Except.ok a := by
  simp [GetArgument, h, pure, Except.pure]

/-! ## The builder: claims -/

/-- C1: the full-form builder returns a definition whose type and name are the supplied
strings, whose inputs and outputs are the supplied sequences in order, and whose argument
sequence is the supplied argument list, entry by entry (same length, same order, equal
values, duplicate names kept). -/
theorem CreateOperatorDef_copies_parts (type name : String) (inputs outputs : List String)
    (args : List (Argument V)) (device_option : DeviceOption) (engine : String) :
    (CreateOperatorDef type name inputs outputs args device_option engine).type = type ∧
    (CreateOperatorDef type name inputs outputs args device_option engine).name = name ∧
    (CreateOperatorDef type name inputs outputs args device_option engine).input = inputs ∧
    (CreateOperatorDef type name inputs outputs args device_option engine).output = outputs ∧
    (CreateOperatorDef type name inputs outputs args device_option engine).arg = args ∧
    (CreateOperatorDef type name inputs outputs args device_option engine).arg_size
      = args.length ∧
    ∀ i : Nat,
      (CreateOperatorDef type name inputs outputs args device_option engine).arg[i]? =
        args[i]? := by
  rw [CreateOperatorDef_eq]
  simp [OperatorDef.arg_size]

/-- C2: the definition returned by the full-form builder has a device option attached
exactly when the supplied one has its device-type flag set, and then the attached one is
the supplied one; it has an engine attached exactly when the supplied engine string is
non-empty, and then it is the supplied string. A supplied device option without device
type is not attached, whatever its other fields. -/
theorem CreateOperatorDef_device_option_engine (type name : String)
    (inputs outputs : List String) (args : List (Argument V)) (device_option : DeviceOption)
    (engine : String) :
    ((CreateOperatorDef type name inputs outputs args device_option engine).has_device_option
        = true ↔ device_option.has_device_type = true) ∧
    (device_option.has_device_type = true →
      (CreateOperatorDef type name inputs outputs args device_option engine).device_option
        = some device_option) ∧
    (device_option.device_type = none →
      (CreateOperatorDef type name inputs outputs args device_option engine).device_option
        = none) ∧
    ((CreateOperatorDef type name inputs outputs args device_option engine).has_engine
        = true ↔ engine ≠ "") ∧
    (engine ≠ "" →
      (CreateOperatorDef type name inputs outputs args device_option engine).engine
        = some engine) := by
  rw [CreateOperatorDef_eq]
  refine ⟨?_, ?_, ?_, ?_, ?_⟩
  · by_cases hd : device_option.has_device_type = true <;>
      simp [hd, OperatorDef.has_device_option]
  · intro hd; simp [hd]
  · intro hd; simp [DeviceOption.has_device_type, hd]
  · by_cases hn : engine = "" <;> simp [hn, OperatorDef.has_engine]
  · intro hn; simp [hn]

/-- A run of C2 on a device option with a device index and no device type, and on one
with a device type. -/
theorem CreateOperatorDef_device_option_engine_witness :
    (CreateOperatorDef "Relu" "r" ["x"] ["y"] ([] : List (Argument Nat))
        ⟨none, some 3⟩ "").device_option = none ∧
    (CreateOperatorDef "Relu" "r" ["x"] ["y"] ([] : List (Argument Nat))
        ⟨some 1, some 3⟩ "CUDNN").device_option = some ⟨some 1, some 3⟩ ∧
    (CreateOperatorDef "Relu" "r" ["x"] ["y"] ([] : List (Argument Nat))
        ⟨some 1, some 3⟩ "CUDNN").engine = some "CUDNN" :=
  ⟨(CreateOperatorDef_device_option_engine "Relu" "r" ["x"] ["y"] [] ⟨none, some 3⟩ "").2.2.1
      rfl,
    (CreateOperatorDef_device_option_engine "Relu" "r" ["x"] ["y"] [] ⟨some 1, some 3⟩
      "CUDNN").2.1 rfl,
    (CreateOperatorDef_device_option_engine "Relu" "r" ["x"] ["y"] [] ⟨some 1, some 3⟩
      "CUDNN").2.2.2.2 (by decide)⟩

/-! ## The argument store: claims -/

/-- C3: `HasArgument(def, name)` is true exactly when some entry of the argument sequence
of `def` is named `name`; on a definition without arguments it is false for every name. -/
theorem HasArgument_iff_some_entry_named (d : OperatorDef V) (name : String) :
    (HasArgument d name = true ↔ ∃ a ∈ d.arg, a.name = name) ∧
    (d.arg = [] → ∀ n : String, HasArgument d n = false) := by
  refine ⟨HasArgument_loop_iff name d.arg, ?_⟩
  intro h n
  simp [HasArgument, h, HasArgument.loop]

/-- C4: when some argument of `def` is named `name`, `GetArgument(def, name)` returns the
entry at the smallest index whose name is `name`: the returned argument has that name
and no entry at an earlier index has it. -/
theorem GetArgument_returns_first_match (d : OperatorDef V) (name : String)
    (h : ∃ a ∈ d.arg, a.name = name) :
    ∃ (i : Nat) (a : Argument V), GetArgument d name = Except.ok a ∧
      d.arg[i]? = some a ∧ a.name = name ∧
      ∀ j, j < i → ∀ b, d.arg[j]? = some b → b.name ≠ name := by
  cases hl : GetArgument.loop name d.arg with
  | none =>
    obtain ⟨a, hal, han⟩ := h
    exact absurd han ((GetArgument_loop_none_iff name d.arg).1 hl a hal)
  | some a =>
    obtain ⟨k, hk, ⟨b, hb, hbn⟩, hmin⟩ := GetArgument_loop_some name d.arg a hl
    have hab : a = b := by
      rw [hk] at hb
      exact Option.some.inj hb
    exact ⟨k, a, by simp [GetArgument, hl, pure, Except.pure], hk, hab ▸ hbn, hmin⟩

/-- A run of C4 on a definition with two arguments named `pad`. -/
theorem GetArgument_returns_first_match_witness :
    (∃ a ∈ sampleDef.arg, a.name = "pad") ∧
    ∃ (i : Nat) (a : Argument Nat), GetArgument sampleDef "pad" = Except.ok a ∧
      sampleDef.arg[i]? = some a ∧ a.name = "pad" ∧
      ∀ j, j < i → ∀ b, sampleDef.arg[j]? = some b → b.name ≠ "pad" :=
  ⟨⟨⟨"pad", some 1⟩, by decide, rfl⟩,
    GetArgument_returns_first_match sampleDef "pad" ⟨⟨"pad", some 1⟩, by decide, rfl⟩⟩

/-- C5: `GetArgument(def, name)` takes the fatal path exactly when no argument of `def`
is named `name`; it does so for every name when `def` has no argument, and on the fatal
path no argument value reaches the caller. -/
theorem GetArgument_fatal_iff_absent (d : OperatorDef V) (name : String) :
    (GetArgument d name = Except.error ("Argument named " ++ name ++ " does not exist.") ↔
      ∀ a ∈ d.arg, a.name ≠ name) ∧
    ((∃ msg, GetArgument d name = Except.error msg) ↔ ∀ a ∈ d.arg, a.name ≠ name) ∧
    (d.arg = [] → ∀ n : String, ∃ msg, GetArgument d n = Except.error msg) ∧
    ((∀ a ∈ d.arg, a.name ≠ name) → ∀ a, GetArgument d name ≠ Except.ok a) := by
  have key : ∀ (e : OperatorDef V) (n : String), (∀ a ∈ e.arg, a.name ≠ n) →
      GetArgument e n = Except.error ("Argument named " ++ n ++ " does not exist.") := by
    intro e n h
    have hl := (GetArgument_loop_none_iff n e.arg).2 h
    simp [GetArgument, hl, CAFFE_LOG_FATAL, bind, Except.bind]
  have back : (∃ msg, GetArgument d name = Except.error msg) → ∀ a ∈ d.arg, a.name ≠ name := by
    rintro ⟨msg, hmsg⟩
    cases hl : GetArgument.loop name d.arg with
    | none => exact (GetArgument_loop_none_iff name d.arg).1 hl
    | some a => simp [GetArgument, hl, pure, Except.pure] at hmsg
  refine ⟨⟨fun h => back ⟨_, h⟩, key d name⟩, ⟨back, fun h => ⟨_, key d name h⟩⟩, ?_, ?_⟩
  · intro h n
    exact ⟨_, key d n (by simp [h])⟩
  · intro h a ha
    rw [key d name h] at ha
    exact Except.noConfusion ha

/-- C6: `HasArgument(def, name)` is true exactly when `GetMutableArgument(name, false, def)`
returns a non-null pointer. -/
theorem HasArgument_iff_GetMutableArgument_present (d : OperatorDef V) (name : String) :
    HasArgument d name = true ↔ (GetMutableArgument name false d).1 ≠ none := by
  rw [HasArgument, HasArgument_loop_iff]
  constructor
  · intro h
    obtain ⟨k, hk, _⟩ := GetMutableArgument_present name false d h
    simp [hk]
  · intro h
    by_contra hne
    have habs : ∀ a ∈ d.arg, a.name ≠ name := fun a ha han => hne ⟨a, ha, han⟩
    rw [GetMutableArgument_absent name false d habs] at h
    simp at h

/-- C7: when no argument of `def` is named `name`, `GetMutableArgument(name, true, def)`
leaves the argument sequence equal to the old one followed by one new entry, named `name`
and with an empty value; it returns a pointer to that last entry; every old entry keeps its
index and its contents; type, name, inputs, outputs, device option and engine are
unchanged. -/
theorem GetMutableArgument_create_appends (d : OperatorDef V) (name : String)
    (h : ∀ a ∈ d.arg, a.name ≠ name) :
    (GetMutableArgument name true d).2.arg = d.arg ++ [⟨name, none⟩] ∧
    (GetMutableArgument name true d).1 = some d.arg.length ∧
    (GetMutableArgument name true d).2.arg[d.arg.length]? = some ⟨name, none⟩ ∧
    (GetMutableArgument name true d).2.arg_size = d.arg_size + 1 ∧
    (∀ i, i < d.arg.length → (GetMutableArgument name true d).2.arg[i]? = d.arg[i]?) ∧
    (GetMutableArgument name true d).2.type = d.type ∧
    (GetMutableArgument name true d).2.name = d.name ∧
    (GetMutableArgument name true d).2.input = d.input ∧
    (GetMutableArgument name true d).2.output = d.output ∧
    (GetMutableArgument name true d).2.device_option = d.device_option ∧
    (GetMutableArgument name true d).2.engine = d.engine := by
  rw [GetMutableArgument_absent name true d h]
  refine ⟨by simp, by simp, by simp, by simp [OperatorDef.arg_size], ?_, rfl, rfl, rfl, rfl,
    rfl, rfl⟩
  intro i hi
  simp [List.getElem?_append_left hi]

/-- A run of C7: the name `stride` is absent from the sample definition. -/
theorem GetMutableArgument_create_appends_witness :
    (∀ a ∈ sampleDef.arg, a.name ≠ "stride") ∧
    (GetMutableArgument "stride" true sampleDef).2.arg =
      [⟨"kernel", some 3⟩, ⟨"pad", some 1⟩, ⟨"pad", some 2⟩, ⟨"stride", none⟩] ∧
    (GetMutableArgument "stride" true sampleDef).1 = some 3 :=
  ⟨by decide,
    (GetMutableArgument_create_appends sampleDef "stride" (by decide)).1,
    (GetMutableArgument_create_appends sampleDef "stride" (by decide)).2.1⟩

/-- C8: when `x` is absent from `def`, two calls of `GetMutableArgument(x, true, def)` in
a row grow the argument sequence by one entry on the first call and by none on the second;
the second call returns a pointer to the entry the first call created, and the definition
after the second call is the definition after the first. -/
theorem GetMutableArgument_create_twice (d : OperatorDef V) (x : String)
    (h : ∀ a ∈ d.arg, a.name ≠ x) :
    (GetMutableArgument x true d).2.arg_size = d.arg_size + 1 ∧
    (GetMutableArgument x true (GetMutableArgument x true d).2).2.arg_size =
      (GetMutableArgument x true d).2.arg_size ∧
    (GetMutableArgument x true d).1 = some d.arg.length ∧
    (GetMutableArgument x true (GetMutableArgument x true d).2).1 =
      (GetMutableArgument x true d).1 ∧
    (GetMutableArgument x true (GetMutableArgument x true d).2).2 =
      (GetMutableArgument x true d).2 := by
  have h1 := GetMutableArgument_absent x true d h
  simp only [if_true] at h1
  have hex : ∃ a ∈ (GetMutableArgument x true d).2.arg, a.name = x := by
    rw [h1]
    exact ⟨⟨x, none⟩, by simp, rfl⟩
  obtain ⟨k, hk, hf⟩ := GetMutableArgument_present x true (GetMutableArgument x true d).2 hex
  have hlast : FirstNamed x (GetMutableArgument x true d).2.arg d.arg.length := by
    rw [h1]
    refine ⟨⟨⟨x, none⟩, by simp, rfl⟩, ?_⟩
    intro j hj b hb
    have hb2 : d.arg[j]? = some b := by
      simpa [List.getElem?_append_left hj] using hb
    exact h b (List.getElem?_mem hb2)
  have hkl : k = d.arg.length := FirstNamed_unique x _ _ _ hf hlast
  rw [hk]
  rw [h1]
  simp [OperatorDef.arg_size, hkl]

/-- A run of C8 on the sample definition and the absent name `stride`. -/
theorem GetMutableArgument_create_twice_witness :
    (∀ a ∈ sampleDef.arg, a.name ≠ "stride") ∧
    (GetMutableArgument "stride" true (GetMutableArgument "stride" true sampleDef).2).1 =
      (GetMutableArgument "stride" true sampleDef).1 ∧
    (GetMutableArgument "stride" true (GetMutableArgument "stride" true sampleDef).2).2 =
      (GetMutableArgument "stride" true sampleDef).2 :=
  ⟨by decide,
    (GetMutableArgument_create_twice sampleDef "stride" (by decide)).2.2.2.1,
    (GetMutableArgument_create_twice sampleDef "stride" (by decide)).2.2.2.2⟩

/-- C9: when some argument of `def` is named `name`, `GetMutableArgument(name, c, def)`
returns, for either value of `c`, a pointer to the entry at the smallest index whose name
is `name`, and leaves `def` unchanged. The pointer designates the entry of `def` itself:
a write through it is a write to that entry of `def`, and to no other. -/
theorem GetMutableArgument_found_first (d : OperatorDef V) (name : String) (c : Bool)
    (h : ∃ a ∈ d.arg, a.name = name) :
    ∃ i : Nat, GetMutableArgument name c d = (some i, d) ∧
      (∃ a, d.arg[i]? = some a ∧ a.name = name) ∧
      (∀ j, j < i → ∀ b, d.arg[j]? = some b → b.name ≠ name) ∧
      (∀ f : Argument V → Argument V, (d.update_arg i f).arg[i]? = (d.arg[i]?).map f) ∧
      (∀ (f : Argument V → Argument V) (j : Nat), j ≠ i →
        (d.update_arg i f).arg[j]? = d.arg[j]?) := by
  obtain ⟨k, hk, hnamed, hmin⟩ := GetMutableArgument_present name c d h
  refine ⟨k, hk, hnamed, hmin, ?_, ?_⟩
  · intro f
    simp [OperatorDef.update_arg, List.getElem?_modify_eq]
  · intro f j hj
    simp [OperatorDef.update_arg, List.getElem?_modify, Ne.symm hj]

/-- A run of C9 on the sample definition, where `pad` names the entries 1 and 2. -/
theorem GetMutableArgument_found_first_witness :
    (∃ a ∈ sampleDef.arg, a.name = "pad") ∧
    ∃ i : Nat, GetMutableArgument "pad" true sampleDef = (some i, sampleDef) ∧
      (∃ a, sampleDef.arg[i]? = some a ∧ a.name = "pad") ∧
      (∀ j, j < i → ∀ b, sampleDef.arg[j]? = some b → b.name ≠ "pad") ∧
      (∀ f : Argument Nat → Argument Nat,
        (sampleDef.update_arg i f).arg[i]? = (sampleDef.arg[i]?).map f) ∧
      (∀ (f : Argument Nat → Argument Nat) (j : Nat), j ≠ i →
        (sampleDef.update_arg i f).arg[j]? = sampleDef.arg[j]?) :=
  ⟨⟨⟨"pad", some 1⟩, by decide, rfl⟩,
    GetMutableArgument_found_first sampleDef "pad" true ⟨⟨"pad", some 1⟩, by decide, rfl⟩⟩

/-- C10: when no argument of `def` is named `name`, `GetMutableArgument(name, false, def)`
returns the null pointer and leaves `def` unchanged: no entry is appended. -/
theorem GetMutableArgument_absent_no_create (d : OperatorDef V) (name : String)
    (h : ∀ a ∈ d.arg, a.name ≠ name) :
    GetMutableArgument name false d = (none, d) ∧
    (GetMutableArgument name false d).2.arg = d.arg := by
  rw [GetMutableArgument_absent name false d h]
  simp

/-- A run of C10 on the sample definition and the absent name `stride`. -/
theorem GetMutableArgument_absent_no_create_witness :
    (∀ a ∈ sampleDef.arg, a.name ≠ "stride") ∧
    GetMutableArgument "stride" false sampleDef = (none, sampleDef) :=
  ⟨by decide, (GetMutableArgument_absent_no_create sampleDef "stride" (by decide)).1⟩

/-! ## Reading files: claims -/

/-- C11: for the full message variant, with the binary and the text reader as given
functions, `ReadProtoFromFile` returns true exactly when the binary read succeeds or the
text read (made on the message the failed binary read left) succeeds, and false when both
fail. The binary read comes first: when it succeeds the result is true with the message
the binary read produced, whatever the text reader is; when it fails the result is that of
the text read. The overload taking a `string` does the same on `filename.c_str()`. -/
theorem ReadProtoFromFile_binary_then_text {M : Type}
    (ReadProtoFromBinaryFile ReadProtoFromTextFile : String → M → Bool × M)
    (filename : String) (proto : M) :
    ((Message.ReadProtoFromFile ReadProtoFromBinaryFile ReadProtoFromTextFile filename
        proto).1 = true ↔
      (ReadProtoFromBinaryFile filename proto).1 = true ∨
      (ReadProtoFromTextFile filename (ReadProtoFromBinaryFile filename proto).2).1 = true) ∧
    ((ReadProtoFromBinaryFile filename proto).1 = false →
      (ReadProtoFromTextFile filename (ReadProtoFromBinaryFile filename proto).2).1 = false →
      (Message.ReadProtoFromFile ReadProtoFromBinaryFile ReadProtoFromTextFile filename
        proto).1 = false) ∧
    ((ReadProtoFromBinaryFile filename proto).1 = true →
      ∀ other : String → M → Bool × M,
        Message.ReadProtoFromFile ReadProtoFromBinaryFile other filename proto =
          (true, (ReadProtoFromBinaryFile filename proto).2)) ∧
    ((ReadProtoFromBinaryFile filename proto).1 = false →
      Message.ReadProtoFromFile ReadProtoFromBinaryFile ReadProtoFromTextFile filename proto =
        ReadProtoFromTextFile filename (ReadProtoFromBinaryFile filename proto).2) ∧
    ((∀ m n : M, (ReadProtoFromTextFile filename m).1 = (ReadProtoFromTextFile filename n).1) →
      ((Message.ReadProtoFromFile ReadProtoFromBinaryFile ReadProtoFromTextFile filename
          proto).1 = true ↔
        (ReadProtoFromBinaryFile filename proto).1 = true ∨
        (ReadProtoFromTextFile filename proto).1 = true)) ∧
    Message.ReadProtoFromFile.string ReadProtoFromBinaryFile ReadProtoFromTextFile filename
        proto =
      Message.ReadProtoFromFile ReadProtoFromBinaryFile ReadProtoFromTextFile
        (c_str filename) proto := by
  cases hb : ReadProtoFromBinaryFile filename proto with
  | mk ok left =>
    cases ok
    · refine ⟨?_, ?_, ?_, ?_, ?_, rfl⟩
      · simp [Message.ReadProtoFromFile, hb]
      · intro _ ht
        simpa [Message.ReadProtoFromFile, hb] using ht
      · intro h
        simp at h
      · intro _
        simp [Message.ReadProtoFromFile, hb]
      · intro hind
        simp [Message.ReadProtoFromFile, hb, hind left proto]
    · refine ⟨?_, ?_, ?_, ?_, ?_, rfl⟩
      · simp [Message.ReadProtoFromFile, hb]
      · intro h
        simp at h
      · intro _ other
        simp [Message.ReadProtoFromFile, hb]
      · intro h
        simp at h
      · intro _
        simp [Message.ReadProtoFromFile, hb]

/-- C13: for the lite message variant, `ReadProtoFromTextFile` and `WriteProtoToTextFile`
never return: for every path and message each call, in either overload, ends in the fatal
log of the text-format message, and leaves the message passed to it as it was. -/
theorem MessageLite_text_wrappers_fatal {L : Type} (filename : String) (proto : L) :
    MessageLite.ReadProtoFromTextFile filename proto =
      (Except.error liteTextMessage, proto) ∧
    MessageLite.ReadProtoFromTextFile.string filename proto =
      (Except.error liteTextMessage, proto) ∧
    MessageLite.WriteProtoToTextFile proto filename =
      (Except.error liteTextMessage, proto) ∧
    MessageLite.WriteProtoToTextFile.string proto filename =
      (Except.error liteTextMessage, proto) ∧
    (∀ b : Bool, (MessageLite.ReadProtoFromTextFile filename proto).1 ≠ Except.ok b) ∧
    (∀ u : Unit, (MessageLite.WriteProtoToTextFile proto filename).1 ≠ Except.ok u) := by
  refine ⟨rfl, rfl, rfl, rfl, ?_, ?_⟩
  · intro b h
    simp [MessageLite.ReadProtoFromTextFile, CAFFE_LOG_FATAL] at h
  · intro u h
    simp [MessageLite.WriteProtoToTextFile, CAFFE_LOG_FATAL] at h

/-- C14, as the claim states it, fails: on a file whose binary read fails, the lite
`ReadProtoFromFile` does not return false, it ends in the fatal log of the text wrapper. -/
theorem MessageLite_ReadProtoFromFile_not_false :
    ¬ ((failingBinaryReader "net.pbtxt" 0).1 = false →
      (MessageLite.ReadProtoFromFile failingBinaryReader "net.pbtxt" 0).1 = Except.ok false) := by
  intro h
  have h2 := h rfl
  simp [MessageLite.ReadProtoFromFile, failingBinaryReader, MessageLite.ReadProtoFromTextFile,
    CAFFE_LOG_FATAL] at h2

/-- C14, amended: for the lite message variant, with the binary reader as a given
function, `ReadProtoFromFile` returns true exactly when the binary read succeeds, with the
message the binary read produced; when the binary read fails it never returns false: the
call ends in the fatal log of the text wrapper, the message being as the binary read left
it. The overload taking a `string` does the same on `filename.c_str()`. -/
theorem MessageLite_ReadProtoFromFile_binary_or_fatal {L : Type}
    (ReadProtoFromBinaryFile : String → L → Bool × L) (filename : String) (proto : L) :
    ((MessageLite.ReadProtoFromFile ReadProtoFromBinaryFile filename proto).1 = Except.ok true ↔
      (ReadProtoFromBinaryFile filename proto).1 = true) ∧
    ((ReadProtoFromBinaryFile filename proto).1 = true →
      MessageLite.ReadProtoFromFile ReadProtoFromBinaryFile filename proto =
        (Except.ok true, (ReadProtoFromBinaryFile filename proto).2)) ∧
    ((ReadProtoFromBinaryFile filename proto).1 = false →
      MessageLite.ReadProtoFromFile ReadProtoFromBinaryFile filename proto =
        (Except.error liteTextMessage, (ReadProtoFromBinaryFile filename proto).2)) ∧
    (MessageLite.ReadProtoFromFile ReadProtoFromBinaryFile filename proto).1 ≠ Except.ok false ∧
    MessageLite.ReadProtoFromFile.string ReadProtoFromBinaryFile filename proto =
      MessageLite.ReadProtoFromFile ReadProtoFromBinaryFile (c_str filename) proto := by
  cases hb : ReadProtoFromBinaryFile filename proto with
  | mk ok left =>
    cases ok <;>
      simp [MessageLite.ReadProtoFromFile, MessageLite.ReadProtoFromFile.string, hb,
        MessageLite.ReadProtoFromTextFile, CAFFE_LOG_FATAL]

/-- C15: over a codec that round-trips (a binary read of a file that a binary write left
succeeds and yields the written message, and likewise a text read of a text-written file),
`ReadProtoFromFile` on a file written by `WriteProtoToBinaryFile(D)` returns true and
yields `D`, and on a file written by `WriteProtoToTextFile(D)` it returns true. -/
theorem ReadProtoFromFile_after_write {FS M : Type} (c : FileCodec FS M)
    (hbin : ∀ (fs : FS) (D : M) (p : String) (written : FS) (m : M),
      c.WriteProtoToBinaryFile fs D p = Except.ok written →
        c.ReadProtoFromBinaryFile written p m = (true, D))
    (htxt : ∀ (fs : FS) (D : M) (p : String) (written : FS) (m : M),
      c.WriteProtoToTextFile fs D p = Except.ok written →
        c.ReadProtoFromTextFile written p m = (true, D))
    (fs : FS) (D : M) (p : String) (written : FS) (m : M) :
    (c.WriteProtoToBinaryFile fs D p = Except.ok written →
      Message.ReadProtoFromFile (c.ReadProtoFromBinaryFile written)
        (c.ReadProtoFromTextFile written) p m = (true, D)) ∧
    (c.WriteProtoToTextFile fs D p = Except.ok written →
      (Message.ReadProtoFromFile (c.ReadProtoFromBinaryFile written)
        (c.ReadProtoFromTextFile written) p m).1 = true) := by
  constructor
  · intro hw
    simp [Message.ReadProtoFromFile, hbin fs D p written m hw]
  · intro hw
    cases hb : c.ReadProtoFromBinaryFile written p m with
    | mk ok left =>
      cases ok
      · simp [Message.ReadProtoFromFile, hb, htxt fs D p written left hw]
      · simp [Message.ReadProtoFromFile, hb]

/-- A run of C15 on the sample codec, which round-trips: the message 7 written in binary
to `net.pb` is read back, and a read of the same message written as text succeeds. -/
theorem ReadProtoFromFile_after_write_witness :
    Message.ReadProtoFromFile (sampleCodec.ReadProtoFromBinaryFile [("net.pb", true, 7)])
      (sampleCodec.ReadProtoFromTextFile [("net.pb", true, 7)]) "net.pb" 0 = (true, 7) ∧
    (Message.ReadProtoFromFile (sampleCodec.ReadProtoFromBinaryFile [("net.pbtxt", false, 7)])
      (sampleCodec.ReadProtoFromTextFile [("net.pbtxt", false, 7)]) "net.pbtxt" 0).1 = true :=
  have hbin : ∀ (fs : List (String × Bool × Nat)) (D : Nat) (p : String)
      (written : List (String × Bool × Nat)) (m : Nat),
      sampleCodec.WriteProtoToBinaryFile fs D p = Except.ok written →
        sampleCodec.ReadProtoFromBinaryFile written p m = (true, D) := by
    intro fs D p written m hw
    have hw2 : (p, true, D) :: fs = written := by simpa [sampleCodec] using hw
    subst hw2
    simp [sampleCodec, List.lookup]
  have htxt : ∀ (fs : List (String × Bool × Nat)) (D : Nat) (p : String)
      (written : List (String × Bool × Nat)) (m : Nat),
      sampleCodec.WriteProtoToTextFile fs D p = Except.ok written →
        sampleCodec.ReadProtoFromTextFile written p m = (true, D) := by
    intro fs D p written m hw
    have hw2 : (p, false, D) :: fs = written := by simpa [sampleCodec] using hw
    subst hw2
    simp [sampleCodec, List.lookup]
  ⟨(ReadProtoFromFile_after_write sampleCodec hbin htxt [] 7 "net.pb"
      [("net.pb", true, 7)] 0).1 rfl,
    (ReadProtoFromFile_after_write sampleCodec hbin htxt [] 7 "net.pbtxt"
      [("net.pbtxt", false, 7)] 0).2 rfl⟩

/-! ## The reduced forms of the builder: claims -/

/-- C12: the five-argument `CreateOperatorDef` is the full form called with an unset
device option and an empty engine string, and the four-argument form is the five-argument
form called with an empty argument sequence; both return a definition without device
option and without engine, and the four-argument form returns one without arguments. -/
theorem CreateOperatorDef_reduced_forms (type name : String) (inputs outputs : List String)
    (args : List (Argument V)) :
    CreateOperatorDef5 type name inputs outputs args =
      CreateOperatorDef type name inputs outputs args DeviceOption.new "" ∧
    DeviceOption.new.has_device_type = false ∧
    (CreateOperatorDef4 type name inputs outputs : OperatorDef V) =
      CreateOperatorDef5 type name inputs outputs [] ∧
    (CreateOperatorDef5 type name inputs outputs args).has_device_option = false ∧
    (CreateOperatorDef5 type name inputs outputs args).has_engine = false ∧
    (CreateOperatorDef4 type name inputs outputs : OperatorDef V).has_device_option = false ∧
    (CreateOperatorDef4 type name inputs outputs : OperatorDef V).has_engine = false ∧
    (CreateOperatorDef4 type name inputs outputs : OperatorDef V).arg = [] ∧
    (CreateOperatorDef4 type name inputs outputs : OperatorDef V).arg_size = 0 ∧
    CreateOperatorDef5 type name inputs outputs args =
      { type := type, name := name, input := inputs, output := outputs, arg := args,
        device_option := none, engine := none } := by
  refine ⟨rfl, rfl, rfl, ?_, ?_, ?_, ?_, ?_, ?_, ?_⟩ <;>
    simp [CreateOperatorDef5, CreateOperatorDef4, CreateOperatorDef_eq,
      OperatorDef.has_device_option, OperatorDef.has_engine, OperatorDef.arg_size,
      DeviceOption.new, DeviceOption.has_device_type]

/-! ## The argument store and the builder together: claims -/

/-- C16: after `GetMutableArgument(n, true, def)`, `HasArgument(def, n)` is true; for every
`m` other than `n`, `HasArgument(def, m)` is what it was before the call; the number of
arguments is the old one when `n` was present and the old one plus one otherwise. -/
theorem GetMutableArgument_create_HasArgument (d : OperatorDef V) (n m : String) :
    HasArgument (GetMutableArgument n true d).2 n = true ∧
    (m ≠ n → HasArgument (GetMutableArgument n true d).2 m = HasArgument d m) ∧
    (HasArgument d n = true → (GetMutableArgument n true d).2.arg_size = d.arg_size) ∧
    (HasArgument d n = false → (GetMutableArgument n true d).2.arg_size = d.arg_size + 1) := by
  by_cases h : ∃ a ∈ d.arg, a.name = n
  · obtain ⟨k, hk, _⟩ := GetMutableArgument_present n true d h
    have hn : HasArgument d n = true := (HasArgument_loop_iff n d.arg).2 h
    rw [hk]
    exact ⟨hn, fun _ => rfl, fun _ => rfl, fun hf => by rw [hn] at hf; cases hf⟩
  · have habs : ∀ a ∈ d.arg, a.name ≠ n := fun a ha han => h ⟨a, ha, han⟩
    have hn : HasArgument d n = false := by
      cases hv : HasArgument d n with
      | false => rfl
      | true => exact absurd ((HasArgument_loop_iff n d.arg).1 hv) h
    rw [GetMutableArgument_absent n true d habs]
    simp only [if_true]
    refine ⟨?_, ?_, ?_, ?_⟩
    · exact (HasArgument_loop_iff n _).2 ⟨⟨n, none⟩, by simp, rfl⟩
    · intro hmn
      rw [Bool.eq_iff_iff]
      simp only [HasArgument, HasArgument_loop_iff]
      constructor
      · rintro ⟨a, ha, han⟩
        rcases List.mem_append.1 ha with hl | hr
        · exact ⟨a, hl, han⟩
        · have : a = ⟨n, none⟩ := by simpa using hr
          subst this
          exact absurd han.symm hmn
      · rintro ⟨a, ha, han⟩
        exact ⟨a, List.mem_append_left _ ha, han⟩
    · intro hf
      rw [hn] at hf
      cases hf
    · intro _
      simp [OperatorDef.arg_size]

/-- C17: when some argument of `def` is named `name`, the argument that
`GetArgument(def, name)` returns is the entry of `def` that the pointer returned by
`GetMutableArgument(name, false, def)` designates: the entry at the smallest index whose
name is `name`, also when several arguments share the name. -/
theorem GetArgument_agrees_with_GetMutableArgument (d : OperatorDef V) (name : String)
    (h : ∃ a ∈ d.arg, a.name = name) :
    ∃ (i : Nat) (a : Argument V), GetMutableArgument name false d = (some i, d) ∧
      GetArgument d name = Except.ok a ∧ d.arg[i]? = some a ∧ a.name = name ∧
      ∀ j, j < i → ∀ b, d.arg[j]? = some b → b.name ≠ name := by
  obtain ⟨k, hk, hf⟩ := GetMutableArgument_present name false d h
  cases hl : GetArgument.loop name d.arg with
  | none =>
    obtain ⟨a, hal, han⟩ := h
    exact absurd han ((GetArgument_loop_none_iff name d.arg).1 hl a hal)
  | some a =>
    obtain ⟨i, hi, hfi⟩ := GetArgument_loop_some name d.arg a hl
    have hik : i = k := FirstNamed_unique name d.arg i k hfi hf
    subst hik
    obtain ⟨⟨b, hb, hbn⟩, hmin⟩ := hfi
    have hab : a = b := by
      rw [hi] at hb
      exact Option.some.inj hb
    exact ⟨i, a, hk, GetArgument_of_loop d name a hl, hi, hab ▸ hbn, hmin⟩

/-- A run of C17 on the sample definition, where `pad` names the entries 1 and 2. -/
theorem GetArgument_agrees_with_GetMutableArgument_witness :
    (∃ a ∈ sampleDef.arg, a.name = "pad") ∧
    ∃ (i : Nat) (a : Argument Nat), GetMutableArgument "pad" false sampleDef = (some i, sampleDef) ∧
      GetArgument sampleDef "pad" = Except.ok a ∧ sampleDef.arg[i]? = some a ∧ a.name = "pad" ∧
      ∀ j, j < i → ∀ b, sampleDef.arg[j]? = some b → b.name ≠ "pad" :=
  ⟨⟨⟨"pad", some 1⟩, by decide, rfl⟩,
    GetArgument_agrees_with_GetMutableArgument sampleDef "pad"
      ⟨⟨"pad", some 1⟩, by decide, rfl⟩⟩

/-- C18: on the definition that `CreateOperatorDef(type, name, inputs, outputs, args)`
builds, `HasArgument` of `n` is true exactly when some element of `args` is named `n`, and
then `GetArgument` of `n` returns the first element of `args` named `n`; the same holds for
the full form, whatever the device option and the engine. -/
theorem CreateOperatorDef_then_lookup (type name : String) (inputs outputs : List String)
    (args : List (Argument V)) (n : String) :
    (HasArgument (CreateOperatorDef5 type name inputs outputs args) n = true ↔
      ∃ a ∈ args, a.name = n) ∧
    (HasArgument (CreateOperatorDef5 type name inputs outputs args) n = true →
      ∃ a, args.find? (fun b => decide (b.name = n)) = some a ∧
        GetArgument (CreateOperatorDef5 type name inputs outputs args) n = Except.ok a) ∧
    (∀ (device_option : DeviceOption) (engine : String),
      (HasArgument (CreateOperatorDef type name inputs outputs args device_option engine) n
          = true ↔ ∃ a ∈ args, a.name = n) ∧
      (HasArgument (CreateOperatorDef type name inputs outputs args device_option engine) n
          = true →
        ∃ a, args.find? (fun b => decide (b.name = n)) = some a ∧
          GetArgument (CreateOperatorDef type name inputs outputs args device_option engine) n
            = Except.ok a)) := by
  have full : ∀ (device_option : DeviceOption) (engine : String),
      (HasArgument (CreateOperatorDef type name inputs outputs args device_option engine) n
          = true ↔ ∃ a ∈ args, a.name = n) ∧
      (HasArgument (CreateOperatorDef type name inputs outputs args device_option engine) n
          = true →
        ∃ a, args.find? (fun b => decide (b.name = n)) = some a ∧
          GetArgument (CreateOperatorDef type name inputs outputs args device_option engine) n
            = Except.ok a) := by
    intro device_option engine
    have harg : (CreateOperatorDef type name inputs outputs args device_option engine).arg
        = args := by
      rw [CreateOperatorDef_eq]
    have hiff : HasArgument (CreateOperatorDef type name inputs outputs args device_option
        engine) n = true ↔ ∃ a ∈ args, a.name = n := by
      rw [HasArgument, harg, HasArgument_loop_iff]
    refine ⟨hiff, ?_⟩
    intro hh
    obtain ⟨a, hal, han⟩ := hiff.1 hh
    cases hl : GetArgument.loop n args with
    | none => exact absurd han ((GetArgument_loop_none_iff n args).1 hl a hal)
    | some b =>
      refine ⟨b, ?_, ?_⟩
      · rw [← GetArgument_loop_eq_find, hl]
      · exact GetArgument_of_loop _ n b (by rw [harg]; exact hl)
  exact ⟨(full DeviceOption.new "").1, (full DeviceOption.new "").2, full⟩

end caffe2
